import Mathlib

set_option maxHeartbeats 1000000

/-!
Verification development for the Smart File Organizer.

The repository ships a Svelte frontend (`src/routes/+page.svelte`) on top of a
Tauri/Rust engine.  The frontend functions (`toggleWatching`, `searchFiles`,
`getFileIcon`, `handleTagClick`) are embedded here directly from the Svelte
source.  The Rust engine (move operator, rule resolver, watcher sessions,
backup queue, search backend) is not present in the checked-in sources; those
components are modelled from the specification, as marked on each definition.
-/

namespace SFO

/-! ## Shared string helpers -/

/-- Embedding of JavaScript `String.prototype.toLowerCase` restricted to the
basic-latin range (the only range exercised by the program's string data):
lower-case every character of the string. -/
def jsToLower (s : String) : String := ⟨s.data.map Char.toLower⟩

/-- Case-sensitive substring test on character lists: `containsSub n h` is
`true` iff `n` occurs contiguously inside `h` (JS `String.prototype.includes`
/ Rust `str::contains` at the character level). -/
def containsSub : List Char → List Char → Bool
  | needle, [] => needle.isEmpty
  | needle, c :: t => needle.isPrefixOf (c :: t) || containsSub needle t

/-- Decimal rendering of a natural number, fuel-indexed so that it is
structurally recursive (the fuel `n + 1` always suffices for input `n`). -/
def renderAux : Nat → Nat → List Char
  | 0, _ => []
  | fuel + 1, n =>
    if n < 10 then [Nat.digitChar n]
    else renderAux fuel (n / 10) ++ [Nat.digitChar (n % 10)]

/-- Decimal rendering of a natural number as a string (the numeric
disambiguator of the collision policy). -/
def renderNat (n : Nat) : String := ⟨renderAux (n + 1) n⟩

/-- Left-to-right decimal parser with accumulator; inverse of `renderAux`,
used to establish injectivity of `renderNat`. -/
def parseAcc (a : Nat) : List Char → Nat
  | [] => a
  | c :: t => parseAcc (a * 10 + (c.toNat - 48)) t

/-- Split a character list at the LAST occurrence of `sep`, returning the
parts before and after it (without the separator), or `none` when `sep` does
not occur. -/
def splitLastOn (sep : Char) : List Char → Option (List Char × List Char)
  | [] => none
  | c :: t =>
    match splitLastOn sep t with
    | some (pre, post) => some (c :: pre, post)
    | none => if c = sep then some ([], t) else none

/-! ## Frontend (`src/routes/+page.svelte`) -/

/-- One `invoke(cmd, args)` call issued by the frontend to the Tauri backend;
`args` is the list of named arguments with their (string-rendered) values. -/
structure InvokeCall where
  cmd : String
  args : List (String × String)
deriving DecidableEq

/-- Embedding of `toggleWatching` from `src/routes/+page.svelte`: given the
current `monitoredFolder` and `isWatching` state it returns the list of
backend invocations issued and the new `isWatching` state.  An empty
`monitoredFolder` returns early; otherwise it invokes
`start_watching_folder` with only the path, or `stop_watching_folder` with no
arguments at all. -/
def toggleWatching (monitoredFolder : String) (isWatching : Bool) :
    List InvokeCall × Bool :=
  if monitoredFolder = "" then ([], isWatching)
  else if isWatching = false then
    ([{ cmd := "start_watching_folder", args := [("path", monitoredFolder)] }], true)
  else
    ([{ cmd := "stop_watching_folder", args := [] }], false)

/-- The argument record the frontend passes to the `search_files` command. -/
structure SearchArgs where
  query : Option String
  tagIds : Option (List Nat)
  ext : Option String
deriving DecidableEq

/-- Embedding of `searchFiles` from `src/routes/+page.svelte` (the argument
construction): `query: searchQuery || null` maps the empty string to `null`,
`tagIds: selectedTags.length > 0 ? selectedTags : null` maps the empty list to
`null`, and `extension` is always `null`. -/
def searchFilesArgs (searchQuery : String) (selectedTags : List Nat) : SearchArgs :=
  { query := if searchQuery = "" then none else some searchQuery
    tagIds := if selectedTags.length > 0 then some selectedTags else none
    ext := none }

/-- The literal icon table of `getFileIcon` in `src/routes/+page.svelte`. -/
def iconMap : List (String × String) :=
  [("pdf", "📄"),
   ("doc", "📄"), ("docx", "📄"), ("txt", "📄"), ("rtf", "📄"), ("odt", "📄"),
   ("jpg", "🖼️"), ("jpeg", "🖼️"), ("png", "🖼️"), ("gif", "🖼️"), ("webp", "🖼️"), ("svg", "🖼️"),
   ("mp4", "🎬"), ("avi", "🎬"), ("mov", "🎬"), ("wmv", "🎬"), ("mkv", "🎬"),
   ("mp3", "🎵"), ("wav", "🎵"), ("flac", "🎵"), ("ogg", "🎵"), ("aac", "🎵"),
   ("zip", "📦"), ("rar", "📦"), ("7z", "📦"), ("tar", "📦"), ("gz", "📦")]

/-- The property names every plain JavaScript object literal inherits from
`Object.prototype`; reading any of them on `iconMap` yields a truthy value
(a built-in function, or `Object.prototype` itself for `__proto__`). -/
def protoKeys : List String :=
  ["constructor", "hasOwnProperty", "isPrototypeOf", "propertyIsEnumerable",
   "toLocaleString", "toString", "valueOf", "__proto__",
   "__defineGetter__", "__defineSetter__", "__lookupGetter__", "__lookupSetter__"]

/-- A JavaScript value as `getFileIcon` can produce it: either a string, or
a truthy non-string member inherited from `Object.prototype` (identified by
the property name that reached it). -/
inductive JsValue where
  | str (s : String)
  | protoMember (name : String)
deriving DecidableEq

/-- Embedding of `getFileIcon` from `src/routes/+page.svelte`:
`iconMap[extension.toLowerCase()] || "📁"`.  JavaScript property access
consults the prototype chain: an own key of the object literal yields its
icon; otherwise a name inherited from `Object.prototype` yields that truthy
member, which survives `||`; only a genuinely absent property is `undefined`
(falsy) and falls back to the folder icon. -/
def getFileIcon (ext : String) : JsValue :=
  match iconMap.lookup (jsToLower ext) with
  | some icon => .str icon
  | none =>
    if protoKeys.contains (jsToLower ext) then .protoMember (jsToLower ext)
    else .str "📁"

/-- Embedding of `handleTagClick` from `src/routes/+page.svelte` (the list
update only): remove `tagId` when present (`filter(id => id !== tagId)`),
append it otherwise (`[...selectedTags, tagId]`). -/
def handleTagClick (selectedTags : List Nat) (tagId : Nat) : List Nat :=
  if selectedTags.contains tagId then selectedTags.filter (fun i => i != tagId)
  else selectedTags ++ [tagId]

/-! ## Move Operator and Metadata Store (spec §4.3, §3) -/

/-- Modelled from the spec: the Metadata Store's `FileRecord` row (the Rust
`database.rs` is absent from the sources); only the fields the move operator
touches are modelled: the stable `id` and the current absolute `path`. -/
structure FileRecord where
  id : Nat
  path : String
deriving DecidableEq

/-- Modelled from the spec: the observable state the move operator acts on —
the set of existing filesystem paths and the Metadata Store's file table. -/
structure SysState where
  fs : List String
  store : List FileRecord
deriving DecidableEq

/-- Stem and extension of a file name, split at the last dot; the extension
keeps its leading dot (`"report.pdf"` ↦ `("report", ".pdf")`). -/
def stemExt (name : String) : String × String :=
  match splitLastOn '.' name.data with
  | some (st, ex) => (⟨st⟩, ⟨'.' :: ex⟩)
  | none => (name, "")

/-- File name component of a path (after the last slash). -/
def fileName (path : String) : String :=
  match splitLastOn '/' path.data with
  | some (_, post) => ⟨post⟩
  | none => path

/-- Modelled from the spec: the candidate destination paths of the collision
policy — the bare name first, then the numeric disambiguator before the
extension (`report.pdf`, `report (1).pdf`, `report (2).pdf`, …). -/
def candidate (folder stem ext : String) : Nat → String
  | 0 => folder ++ "/" ++ stem ++ ext
  | k + 1 => folder ++ "/" ++ stem ++ " (" ++ renderNat (k + 1) ++ ")" ++ ext

/-- Candidate paths for moving the file named `name` into folder `dest`. -/
def candidateFor (dest : String) (name : String) : Nat → String :=
  candidate dest (stemExt name).1 (stemExt name).2

/-- Modelled from the spec: "incrementing until free" — try candidates `k`,
`k+1`, … while they exist on disk; fuel-indexed for structural recursion. -/
def findFreeAux (fs : List String) (cand : Nat → String) : Nat → Nat → Option String
  | 0, _ => none
  | fuel + 1, k =>
    if fs.contains (cand k) then findFreeAux fs cand fuel (k + 1)
    else some (cand k)

/-- First free candidate path; fuel `fs.length + 1` always suffices because
the candidates are pairwise distinct. -/
def findFree (fs : List String) (cand : Nat → String) : Option String :=
  findFreeAux fs cand (fs.length + 1) 0

/-- Modelled from the spec: `relocate(file_id, destination_folder)` of the
Move Operator (§4.3; the Rust `file_ops.rs` is absent from the sources).  It
looks up the record, requires the source to exist, picks the first
collision-free destination path, and atomically performs the filesystem move
together with the store update: the returned state has both applied; on any
failure `none` is returned and no new state is observable. -/
def relocate (st : SysState) (fid : Nat) (dest : String) : Option (SysState × String) :=
  match st.store.find? (fun r => r.id == fid) with
  | none => none
  | some r =>
    if st.fs.contains r.path then
      match findFree st.fs (candidateFor dest (fileName r.path)) with
      | none => none
      | some newPath =>
        some ({ fs := newPath :: st.fs.filter (fun p => p != r.path)
                store := st.store.map
                  (fun q => if q.id == fid then { q with path := newPath } else q) },
              newPath)
    else none

/-- Current path of the record with key `fid`, as the Metadata Store reports it. -/
def pathOf (st : SysState) (fid : Nat) : Option String :=
  (st.store.find? (fun r => r.id == fid)).map (fun r => r.path)

/-! ## Rule Resolver and Organization Coordinator (spec §4.2, §4.4) -/

/-- Modelled from the spec: the attributes the resolver may consult. -/
structure FileAttrs where
  name : String
  ext : String
deriving DecidableEq

/-- Modelled from the spec: a destination template, which "may reference file
attributes" — modelled as a base folder with an optional by-extension
subfolder. -/
structure DestTemplate where
  base : String
  byExt : Bool
deriving DecidableEq

/-- Modelled from the spec: an organization rule — `pattern` (extension
list), `destination_template`, and `priority` (lower matches first). -/
structure Rule where
  pattern : List String
  destTemplate : DestTemplate
  priority : Nat
deriving DecidableEq

/-- Insert a rule into a priority-sorted rule list. -/
def insertByPriority (r : Rule) : List Rule → List Rule
  | [] => [r]
  | s :: t => if r.priority ≤ s.priority then r :: s :: t else s :: insertByPriority r t

/-- Sort rules by ascending priority (insertion sort). -/
def sortRules : List Rule → List Rule
  | [] => []
  | r :: t => insertByPriority r (sortRules t)

/-- Expand a destination template against the file's attributes. -/
def expandTemplate (t : DestTemplate) (a : FileAttrs) : String :=
  if t.byExt then t.base ++ "/" ++ a.ext else t.base

/-- Modelled from the spec: `resolve(file_attributes, rule_snapshot)` of the
Rule Resolver (§4.2; the Rust backend is absent from the sources): rules are
evaluated in ascending priority order, the first rule whose pattern matches
the file's extension is selected, and its template is expanded; `none` is
`NoMatch`. -/
def resolve (a : FileAttrs) (rules : List Rule) : Option String :=
  match (sortRules rules).find? (fun r => r.pattern.contains a.ext) with
  | some r => some (expandTemplate r.destTemplate a)
  | none => none

/-- Modelled from the spec: the filesystem effect of acting on one resolved
file (move into the destination folder when a destination was resolved). -/
def applyMove (st : SysState) (a : FileAttrs) : Option String → SysState
  | none => st
  | some folder =>
    { st with fs := (folder ++ "/" ++ a.name) :: st.fs.filter (fun p => p != a.name) }

/-- Modelled from the spec: the Organization Coordinator's per-arrival loop
(§4.4): consume files in arrival order, resolve each against the rule
snapshot, act on the filesystem state, and log each file's resolution. -/
def organizeAll (rules : List Rule) : SysState → List FileAttrs → List (FileAttrs × Option String)
  | _, [] => []
  | st, f :: rest =>
    (f, resolve f rules) :: organizeAll rules (applyMove st f (resolve f rules)) rest

/-! ## Search backend (spec §6 `search_files`) -/

/-- Modelled from the spec: a searchable file row (name, extension, tag
keys) as returned by `search_files`. -/
structure SearchRecord where
  id : Nat
  name : String
  ext : String
  tags : List Nat
deriving DecidableEq

/-- Modelled from the spec: the optional text filter — the query must occur
as a case-insensitive substring of the file name. -/
def matchesQuery (q : Option String) (nm : String) : Bool :=
  match q with
  | none => true
  | some qs => containsSub (jsToLower qs).data (jsToLower nm).data

/-- Modelled from the spec: the optional tag filter — the record carries one
of the requested tags. -/
def matchesTags (ts : Option (List Nat)) (tags : List Nat) : Bool :=
  match ts with
  | none => true
  | some l => l.any (fun t => tags.contains t)

/-- Modelled from the spec: the optional extension filter. -/
def matchesExt (e : Option String) (x : String) : Bool :=
  match e with
  | none => true
  | some s => s == x

/-- Modelled from the spec: `search_files(query, tag_ids, extension)` (§6;
the Rust backend is absent from the sources) — results satisfy every given
filter (logical AND). -/
def searchFiles (recs : List SearchRecord) (q : Option String)
    (ts : Option (List Nat)) (e : Option String) : List SearchRecord :=
  recs.filter (fun r => matchesQuery q r.name && matchesTags ts r.tags && matchesExt e r.ext)

/-! ## Backup Queue (spec §4.5, §3 BackupTask) -/

/-- Modelled from the spec: BackupTask status,
`{Pending, InFlight, Done, Failed(reason)}`. -/
inductive BStatus where
  | pending
  | inFlight
  | done
  | failed (reason : String)
deriving DecidableEq

/-- Modelled from the spec: a BackupTask row (`file_id`, `status`,
`attempt_count`). -/
structure BackupTask where
  fileId : Nat
  status : BStatus
  attemptCount : Nat
deriving DecidableEq

/-- Worker-side events a task can experience: being picked up by the drain
loop, upload success, or upload failure with a reason. -/
inductive BEvent where
  | pick
  | succeed
  | fail (reason : String)
deriving DecidableEq

/-- Modelled from the spec: the Backup Queue worker transition (§4.5; the
Rust `cloud_sync.rs` is absent from the sources): the worker drains Pending
tasks, a success transitions to Done, a failure increments `attempt_count`
and re-queues as Pending, and after the configured maximum attempt count the
task transitions to terminal `Failed(reason)`.  Done and Failed tasks are
never touched again. -/
def stepTask (maxAttempts : Nat) (t : BackupTask) : BEvent → BackupTask
  | .pick =>
    match t.status with
    | .pending => { t with status := .inFlight }
    | _ => t
  | .succeed =>
    match t.status with
    | .inFlight => { t with status := .done }
    | _ => t
  | .fail r =>
    match t.status with
    | .inFlight =>
      if maxAttempts ≤ t.attemptCount + 1 then
        { t with status := .failed r, attemptCount := t.attemptCount + 1 }
      else
        { t with status := .pending, attemptCount := t.attemptCount + 1 }
    | _ => t

/-- Run a sequence of worker events over one task. -/
def runEvents (maxAttempts : Nat) (t : BackupTask) (evs : List BEvent) : BackupTask :=
  evs.foldl (stepTask maxAttempts) t

/-- `n` consecutive failed attempts: each cycle is a pick-up followed by a
failure with reason `r`. -/
def failCycles (r : String) : Nat → List BEvent
  | 0 => []
  | n + 1 => BEvent.pick :: BEvent.fail r :: failCycles r n

/-- A freshly enqueued task (`enqueue(file_id)`): Pending with no attempts. -/
def newTask (fid : Nat) : BackupTask :=
  { fileId := fid, status := .pending, attemptCount := 0 }

/-- Modelled from the spec: one worker event delivered to the task of
`file_id = fid` in the queue; other tasks are untouched, none is removed. -/
def stepQueue (maxAttempts : Nat) (q : List BackupTask) (fid : Nat) (e : BEvent) :
    List BackupTask :=
  q.map (fun t => if t.fileId == fid then stepTask maxAttempts t e else t)

/-- Modelled from the spec: `status(file_id)` — look the task up in the
queue. -/
def statusOf (q : List BackupTask) (fid : Nat) : Option BStatus :=
  (q.find? (fun t => t.fileId == fid)).map (fun t => t.status)

/-! ## Folder Watcher sessions (spec §4.1, §3 WatchSession) -/

/-- Modelled from the spec: a WatchSession — `root_path` and `is_active`. -/
structure WatchSession where
  rootPath : String
  isActive : Bool
deriving DecidableEq

/-- Modelled from the spec: `start` errors (§4.1). -/
inductive WatchError where
  | alreadyWatching
  | pathNotFound
deriving DecidableEq

/-- Modelled from the spec: `start(root_path)` (§4.1; the Rust backend is
absent from the sources): rejected with `AlreadyWatching` when an active
session on that root exists, with `PathNotFound` when the root is not among
the existing directories `roots`; otherwise a new active session is added. -/
def startW (roots : List String) (sessions : List WatchSession) (p : String) :
    Except WatchError (List WatchSession) :=
  if sessions.any (fun s => s.isActive && s.rootPath == p) then
    .error .alreadyWatching
  else if roots.contains p then
    .ok ({ rootPath := p, isActive := true } :: sessions)
  else
    .error .pathNotFound

/-- Modelled from the spec: `stop(session)` — deactivate the session on the
given root. -/
def stopW (sessions : List WatchSession) (p : String) : List WatchSession :=
  sessions.map (fun s => if s.rootPath == p then { s with isActive := false } else s)

/-- The operations whose interleavings generate the reachable session
states. -/
inductive WOp where
  | wstart (p : String)
  | wstop (p : String)

/-- Apply one start/stop operation; a failed start leaves the state
unchanged. -/
def applyOp (roots : List String) (ss : List WatchSession) : WOp → List WatchSession
  | .wstart p =>
    match startW roots ss p with
    | .ok ss' => ss'
    | .error _ => ss
  | .wstop p => stopW ss p

/-- Replay a list of start/stop operations from a session state. -/
def runOps (roots : List String) (ss : List WatchSession) : List WOp → List WatchSession
  | [] => ss
  | op :: rest => runOps roots (applyOp roots ss op) rest

/-- No two active sessions share a root path. -/
def uniqueActive (ss : List WatchSession) : Prop :=
  ss.Pairwise (fun s t => s.isActive = true → t.isActive = true → s.rootPath ≠ t.rootPath)

/-! ## Helper lemmas -/

/-- `Char.toLower` is idempotent: lowering an already-lowered character is
the identity. -/
theorem toLower_toLower (c : Char) : c.toLower.toLower = c.toLower := by
  unfold Char.toLower
  by_cases h : c.toNat ≥ 65 ∧ c.toNat ≤ 90
  · have hv : (c.toNat + 32).isValidChar := by
      left
      omega
    have htn : (Char.ofNat (c.toNat + 32)).toNat = c.toNat + 32 := by
      simp only [Char.ofNat, hv, dif_pos]
      rfl
    have hno : ¬ (c.toNat + 32 ≥ 65 ∧ c.toNat + 32 ≤ 90) := by omega
    rw [if_pos h, htn, if_neg hno]
  · rw [if_neg h, if_neg h]

/-- `jsToLower` is idempotent. -/
theorem jsToLower_idem (s : String) : jsToLower (jsToLower s) = jsToLower s := by
  unfold jsToLower
  simp [List.map_map, Function.comp_def, toLower_toLower]

/-! ## Claims about the frontend code -/

/-- Claim C9 counterexample: the extension "constructor" is not in the fixed
icon map, yet `getFileIcon` does not return the default folder icon — the
property access hits the inherited truthy `Object.prototype.constructor`,
which survives `|| "📁"`. -/
theorem getFileIcon_inherited_counterexample :
    iconMap.lookup (jsToLower "constructor") = none ∧
    getFileIcon "constructor" ≠ JsValue.str "📁" := by
  decide

/-- Claim C9 (amended): `getFileIcon` is case-insensitive — it agrees with
itself on the lower-cased extension — and every extension whose lower-casing
is neither an own key of the fixed icon table nor a property name inherited
from `Object.prototype` gets the default folder icon. -/
theorem getFileIcon_ci_default (s : String) :
    getFileIcon s = getFileIcon (jsToLower s) ∧
    (iconMap.lookup (jsToLower s) = none → protoKeys.contains (jsToLower s) = false →
      getFileIcon s = .str "📁") := by
  constructor
  · unfold getFileIcon
    rw [jsToLower_idem]
  · intro h1 h2
    unfold getFileIcon
    rw [h1, h2]
    simp

/-- Claim C9 (amended) witness: at the concrete extension "XYZ" the lookup
misses, "xyz" is no inherited property name, and the folder icon is
returned. -/
theorem getFileIcon_ci_default_witness :
    getFileIcon "XYZ" = getFileIcon (jsToLower "XYZ") ∧
    getFileIcon "XYZ" = .str "📁" :=
  ⟨(getFileIcon_ci_default "XYZ").1,
   (getFileIcon_ci_default "XYZ").2 (by decide) (by decide)⟩

/-- Claim C10: on a duplicate-free tag list, `handleTagClick` keeps the list
duplicate-free, flips the membership of the clicked tag, and applying it
twice restores the original membership of every tag. -/
theorem handleTagClick_toggles (l : List Nat) (t : Nat) (hnd : l.Nodup) :
    (handleTagClick l t).Nodup ∧
    (t ∈ handleTagClick l t ↔ t ∉ l) ∧
    (∀ x, x ∈ handleTagClick (handleTagClick l t) t ↔ x ∈ l) := by
  by_cases hm : t ∈ l
  · have h1 : handleTagClick l t = l.filter (fun i => i != t) := by
      simp [handleTagClick, hm]
    have h2 : handleTagClick (l.filter (fun i => i != t)) t
        = l.filter (fun i => i != t) ++ [t] := by
      simp [handleTagClick, List.mem_filter]
    refine ⟨?_, ?_, ?_⟩
    · rw [h1]
      exact hnd.filter _
    · rw [h1]
      simp [List.mem_filter, hm]
    · intro x
      rw [h1, h2]
      by_cases hx : x = t
      · subst hx
        simp [hm]
      · simp [List.mem_append, List.mem_filter, hx]
  · have h1 : handleTagClick l t = l ++ [t] := by
      simp [handleTagClick, hm]
    have h2 : handleTagClick (l ++ [t]) t = (l ++ [t]).filter (fun i => i != t) := by
      simp [handleTagClick]
    have hfl : (l ++ [t]).filter (fun i => i != t) = l := by
      rw [List.filter_append]
      have : l.filter (fun i => i != t) = l :=
        List.filter_eq_self.2 (fun a ha => by
          simp only [bne_iff_ne, ne_eq, decide_eq_true_eq]
          exact fun he => hm (he ▸ ha))
      simp [this]
    refine ⟨?_, ?_, ?_⟩
    · rw [h1]
      simp [List.nodup_append, hnd, hm]
    · rw [h1]
      simp [hm]
    · intro x
      rw [h1, h2, hfl]

/-- Claim C10 witness: concrete toggles on the duplicate-free list `[1, 2]`. -/
theorem handleTagClick_toggles_witness :
    ((handleTagClick [1, 2] 2).Nodup ∧ (2 ∈ handleTagClick [1, 2] 2 ↔ 2 ∉ [1, 2])) ∧
    (1 ∈ handleTagClick (handleTagClick [1, 2] 2) 2 ↔ 1 ∈ [1, 2]) :=
  ⟨⟨(handleTagClick_toggles [1, 2] 2 (by decide)).1,
    (handleTagClick_toggles [1, 2] 2 (by decide)).2.1⟩,
   (handleTagClick_toggles [1, 2] 2 (by decide)).2.2 1⟩

/-- Claim C7 counterexample: at the concrete state (folder
"/Users/demo/Downloads", currently watching), `toggleWatching` invokes
`stop_watching_folder` with an empty argument list — no SessionId is passed,
so the frontend watching interface is not session-scoped. -/
theorem toggleWatching_stop_passes_no_session :
    (toggleWatching "/Users/demo/Downloads" true).1.map
      (fun c => (c.cmd, c.args)) = [("stop_watching_folder", [])] := by
  rfl

/-- Claim C7 (amended): the frontend watching interface is global rather
than session-scoped — with a non-empty monitored folder, `toggleWatching`
starts by invoking `start_watching_folder` with only the path (no SessionId
is captured) and stops by invoking `stop_watching_folder` with no arguments
(stopping the single active watch). -/
theorem toggleWatching_global (folder : String) (hf : folder ≠ "") :
    toggleWatching folder false
      = ([{ cmd := "start_watching_folder", args := [("path", folder)] }], true) ∧
    toggleWatching folder true
      = ([{ cmd := "stop_watching_folder", args := [] }], false) := by
  constructor <;> simp [toggleWatching, hf]

/-- Claim C7 (amended) witness: the concrete folder "/watched". -/
theorem toggleWatching_global_witness :
    toggleWatching "/watched" false
      = ([{ cmd := "start_watching_folder", args := [("path", "/watched")] }], true) ∧
    toggleWatching "/watched" true
      = ([{ cmd := "stop_watching_folder", args := [] }], false) :=
  toggleWatching_global "/watched" (by decide)

/-- Claim C8: the frontend maps an empty search box to a `null` text filter
(not an empty-string substring filter) and an empty tag selection to a
`null` tag filter (not an empty set). -/
theorem searchFilesArgs_empty_to_null (q : String) (l : List Nat) :
    (searchFilesArgs "" l).query = none ∧ (searchFilesArgs q []).tagIds = none := by
  constructor <;> rfl

/-! ## Claims about the search backend -/

/-- Claim C4: every record returned by `search_files` when both a text query
and a tag set are given satisfies both filters — the query occurs
case-insensitively in the file name and the record carries one of the given
tags (logical AND). -/
theorem searchFiles_and_of_filters (recs : List SearchRecord) (qs : String)
    (ts : List Nat) (e : Option String) (r : SearchRecord) (hts : ts ≠ [])
    (h : r ∈ searchFiles recs (some qs) (some ts) e) :
    containsSub (jsToLower qs).data (jsToLower r.name).data = true ∧
    matchesTags (some ts) r.tags = true := by
  unfold searchFiles at h
  rw [List.mem_filter] at h
  have hb := h.2
  simp only [Bool.and_eq_true] at hb
  exact ⟨hb.1.1, hb.1.2⟩

/-- Claim C4 witness: searching "Voice" with tag set `[3]` returns the
record named "Invoice.pdf" carrying tag 3, and both filters hold of it. -/
theorem searchFiles_and_of_filters_witness :
    containsSub (jsToLower "Voice").data (jsToLower "Invoice.pdf").data = true ∧
    matchesTags (some [3]) [3] = true :=
  searchFiles_and_of_filters [⟨1, "Invoice.pdf", "pdf", [3]⟩] "Voice" [3] none
    ⟨1, "Invoice.pdf", "pdf", [3]⟩ (by decide) (by decide)

/-! ## Claims about the Rule Resolver -/

/-- Every logged resolution of the coordinator loop is `resolve` of the
file's attributes against the rule snapshot, independent of the threaded
filesystem state and of the surrounding files. -/
theorem organizeAll_log (rules : List Rule) :
    ∀ (st : SysState) (l : List FileAttrs) (p : FileAttrs × Option String),
      p ∈ organizeAll rules st l → p.2 = resolve p.1 rules := by
  intro st l
  induction l generalizing st with
  | nil =>
    intro p h
    simp [organizeAll] at h
  | cons f rest ih =>
    intro p h
    simp only [organizeAll, List.mem_cons] at h
    rcases h with h | h
    · subst h
      rfl
    · exact ih _ p h

/-- Claim C3: the Rule Resolver is deterministic — whenever the same file
attributes are resolved against the same rule snapshot in any two coordinator
runs (any arrival orders, any filesystem states), the logged
destination-or-NoMatch results agree, and both equal the pure `resolve`. -/
theorem resolver_deterministic (rules : List Rule) (st st' : SysState)
    (l l' : List FileAttrs) (f : FileAttrs) (d d' : Option String)
    (h1 : (f, d) ∈ organizeAll rules st l)
    (h2 : (f, d') ∈ organizeAll rules st' l') :
    d = d' ∧ d = resolve f rules := by
  have e1 := organizeAll_log rules st l (f, d) h1
  have e2 := organizeAll_log rules st' l' (f, d') h2
  exact ⟨e1.trans e2.symm, e1⟩

/-- Claim C3 witness: the pdf rule resolves `invoice.pdf` to "/Documents" in
both arrival orders of two files. -/
theorem resolver_deterministic_witness :
    (some "/Documents" : Option String) = some "/Documents" ∧
    (some "/Documents" : Option String)
      = resolve ⟨"invoice.pdf", "pdf"⟩ [⟨["pdf"], ⟨"/Documents", false⟩, 1⟩] :=
  resolver_deterministic [⟨["pdf"], ⟨"/Documents", false⟩, 1⟩] ⟨[], []⟩ ⟨[], []⟩
    [⟨"invoice.pdf", "pdf"⟩, ⟨"notes.txt", "txt"⟩]
    [⟨"notes.txt", "txt"⟩, ⟨"invoice.pdf", "pdf"⟩]
    ⟨"invoice.pdf", "pdf"⟩ (some "/Documents") (some "/Documents")
    (by decide) (by decide)

/-! ## Claims about the Backup Queue -/

/-- `stepTask` never changes the task's file key. -/
theorem stepTask_fileId (maxA : Nat) (t : BackupTask) (e : BEvent) :
    (stepTask maxA t e).fileId = t.fileId := by
  cases e with
  | pick => cases h : t.status <;> simp [stepTask, h]
  | succeed => cases h : t.status <;> simp [stepTask, h]
  | fail r =>
    cases h : t.status <;> simp only [stepTask, h] <;> first | rfl | (split <;> rfl)

/-- A Failed task is fixed by every worker event. -/
theorem stepTask_failed (maxA : Nat) (t : BackupTask) (e : BEvent) (r : String)
    (h : t.status = .failed r) : stepTask maxA t e = t := by
  cases e <;> simp [stepTask, h]

/-- One worker event prepended to a run. -/
theorem runEvents_cons (maxA : Nat) (t : BackupTask) (e : BEvent) (evs : List BEvent) :
    runEvents maxA t (e :: evs) = runEvents maxA (stepTask maxA t e) evs := rfl

/-- A Failed task is fixed by every sequence of worker events. -/
theorem runEvents_failed (maxA : Nat) (t : BackupTask) (evs : List BEvent) (r : String)
    (h : t.status = .failed r) : runEvents maxA t evs = t := by
  induction evs with
  | nil => rfl
  | cons e evs ih =>
    rw [runEvents_cons, stepTask_failed maxA t e r h]
    exact ih

/-- After `n` further consecutive failures a Pending task with `c` prior
attempts, `c + n` reaching the maximum, ends terminal Failed. -/
theorem failCycles_reach (maxA fid : Nat) (r : String) :
    ∀ n c, 0 < n → c + n = maxA →
      runEvents maxA ⟨fid, .pending, c⟩ (failCycles r n) = ⟨fid, .failed r, maxA⟩ := by
  intro n
  induction n with
  | zero =>
    intro c h0 _
    exact absurd h0 (by omega)
  | succ n ih =>
    intro c h0 hsum
    have s1 : stepTask maxA ⟨fid, .pending, c⟩ .pick = ⟨fid, .inFlight, c⟩ := rfl
    by_cases hn : n = 0
    · subst hn
      have hle : c + 1 = maxA := by omega
      subst hle
      have s2 : stepTask (c + 1) ⟨fid, .inFlight, c⟩ (.fail r) = ⟨fid, .failed r, c + 1⟩ := by
        simp [stepTask]
      rw [show failCycles r 1 = [BEvent.pick, BEvent.fail r] from rfl,
        runEvents_cons, s1, runEvents_cons, s2]
      rfl
    · have hlt : ¬ maxA ≤ c + 1 := by omega
      have s2 : stepTask maxA ⟨fid, .inFlight, c⟩ (.fail r) = ⟨fid, .pending, c + 1⟩ := by
        simp [stepTask, hlt]
      rw [show failCycles r (n + 1) = BEvent.pick :: BEvent.fail r :: failCycles r n from rfl,
        runEvents_cons, s1, runEvents_cons, s2]
      exact ih (c + 1) (by omega) (by omega)

/-- `find?` by file key commutes with mapping a key-preserving function over
the queue. -/
theorem find?_map_keyed (g : BackupTask → BackupTask)
    (hg : ∀ t, (g t).fileId = t.fileId) (q : List BackupTask) (fid : Nat) :
    (q.map g).find? (fun t => t.fileId == fid)
      = (q.find? (fun t => t.fileId == fid)).map g := by
  induction q with
  | nil => rfl
  | cons t q ih =>
    by_cases h : (t.fileId == fid) = true
    · simp [List.find?_cons, hg, h]
    · simp only [List.map_cons, List.find?_cons, hg, h]
      simp only [Bool.not_eq_true] at h
      simp [h, ih]

/-- Claim C5: a BackupTask that fails the configured maximum number of
consecutive attempts reaches the terminal state Failed(reason); a Failed
task is never transitioned back to Pending or InFlight by any further
automatic worker activity; and Failed tasks remain queryable through
`status(file_id)` across queue steps, never dropped. -/
theorem backup_failed_terminal (maxA fid : Nat) (r : String) (hm : 0 < maxA) :
    runEvents maxA (newTask fid) (failCycles r maxA) = ⟨fid, .failed r, maxA⟩ ∧
    (∀ (t : BackupTask) (evs : List BEvent), t.status = .failed r →
      runEvents maxA t evs = t) ∧
    (∀ (q : List BackupTask) (fid' : Nat) (e : BEvent),
      statusOf q fid = some (.failed r) →
      statusOf (stepQueue maxA q fid' e) fid = some (.failed r)) := by
  refine ⟨?_, ?_, ?_⟩
  · exact failCycles_reach maxA fid r maxA 0 hm (by omega)
  · intro t evs h
    exact runEvents_failed maxA t evs r h
  · intro q fid' e h
    unfold statusOf at h ⊢
    unfold stepQueue
    have hg : ∀ t : BackupTask,
        ((if t.fileId == fid' then stepTask maxA t e else t) : BackupTask).fileId
          = t.fileId := by
      intro t
      split
      · exact stepTask_fileId maxA t e
      · rfl
    rw [find?_map_keyed _ hg]
    rcases hq : q.find? (fun t => t.fileId == fid) with _ | t0
    · rw [hq] at h
      exact Option.noConfusion h
    · rw [hq] at h ⊢
      simp only [Option.map_some'] at h ⊢
      have ht0 : t0.status = .failed r := by
        injection h
      have : (if t0.fileId == fid' then stepTask maxA t0 e else t0) = t0 := by
        split
        · exact stepTask_failed maxA t0 e r ht0
        · rfl
      rw [this, ht0]

/-- Claim C5 witness: with maximum 2, task 7 fails twice and is terminal
Failed; further events leave it Failed; it stays queryable in a queue. -/
theorem backup_failed_terminal_witness :
    runEvents 2 (newTask 7) (failCycles "network unreachable" 2)
      = ⟨7, .failed "network unreachable", 2⟩ ∧
    runEvents 2 ⟨7, .failed "network unreachable", 2⟩ [BEvent.pick, BEvent.succeed]
      = ⟨7, .failed "network unreachable", 2⟩ ∧
    statusOf (stepQueue 2 [⟨7, .failed "network unreachable", 2⟩] 7 BEvent.pick) 7
      = some (.failed "network unreachable") :=
  ⟨(backup_failed_terminal 2 7 "network unreachable" (by decide)).1,
   (backup_failed_terminal 2 7 "network unreachable" (by decide)).2.1
     ⟨7, .failed "network unreachable", 2⟩ [BEvent.pick, BEvent.succeed] rfl,
   (backup_failed_terminal 2 7 "network unreachable" (by decide)).2.2
     [⟨7, .failed "network unreachable", 2⟩] 7 BEvent.pick rfl⟩

/-! ## Claims about Watch sessions -/

/-- Inversion of a successful `start`: the new state is the old one with a
fresh active session, and no active session on the root pre-existed. -/
theorem startW_ok_inv (roots : List String) (ss : List WatchSession) (p : String)
    (ss' : List WatchSession) (h : startW roots ss p = .ok ss') :
    ss' = { rootPath := p, isActive := true } :: ss ∧
    (ss.any fun s => s.isActive && s.rootPath == p) = false := by
  unfold startW at h
  cases hany : ss.any (fun s => s.isActive && s.rootPath == p) with
  | true =>
    rw [hany] at h
    simp at h
  | false =>
    rw [hany] at h
    cases hr : roots.contains p with
    | true =>
      rw [hr] at h
      simp at h
      exact ⟨h.symm, rfl⟩
    | false =>
      rw [hr] at h
      simp at h

/-- Starting preserves the one-active-session-per-root invariant. -/
theorem applyOp_start_preserves (roots : List String) (ss : List WatchSession)
    (p : String) (h : uniqueActive ss) :
    uniqueActive (applyOp roots ss (.wstart p)) := by
  rcases hs : startW roots ss p with e | ss'
  · have hred : applyOp roots ss (.wstart p) = ss := by
      simp only [applyOp]
      rw [hs]
    rw [hred]
    exact h
  · rcases startW_ok_inv roots ss p ss' hs with ⟨heq, hany⟩
    subst heq
    have hred : applyOp roots ss (.wstart p)
        = ({ rootPath := p, isActive := true } : WatchSession) :: ss := by
      simp only [applyOp]
      rw [hs]
    rw [hred]
    unfold uniqueActive
    rw [List.pairwise_cons]
    refine ⟨?_, h⟩
    intro t ht _ hta
    have hall := List.any_eq_false.mp hany t ht
    simp only [Bool.and_eq_true, not_and] at hall
    have hne := hall hta
    have hne2 : t.rootPath ≠ p := fun he => hne (by simp [he])
    exact fun he => hne2 he.symm

/-- Stopping preserves the one-active-session-per-root invariant. -/
theorem stopW_preserves (ss : List WatchSession) (p : String)
    (h : uniqueActive ss) : uniqueActive (stopW ss p) := by
  unfold stopW uniqueActive
  refine List.Pairwise.map _ ?_ h
  intro a b hab ha hb
  have groot : ∀ s : WatchSession,
      ((if s.rootPath == p then { s with isActive := false } else s) : WatchSession).rootPath
        = s.rootPath := by
    intro s
    split <;> rfl
  have gact : ∀ s : WatchSession,
      ((if s.rootPath == p then { s with isActive := false } else s) : WatchSession).isActive
          = true → s.isActive = true := by
    intro s
    split
    · intro hx
      simp at hx
    · exact fun hx => hx
  rw [groot a, groot b] at *
  exact hab (gact a ha) (gact b hb)

/-- Every start/stop operation preserves the invariant. -/
theorem applyOp_preserves (roots : List String) (ss : List WatchSession) (op : WOp)
    (h : uniqueActive ss) : uniqueActive (applyOp roots ss op) := by
  cases op with
  | wstart p => exact applyOp_start_preserves roots ss p h
  | wstop p => exact stopW_preserves ss p h

/-- The invariant holds in every state reachable by a run of operations. -/
theorem runOps_preserves (roots : List String) :
    ∀ (ops : List WOp) (ss : List WatchSession), uniqueActive ss →
      uniqueActive (runOps roots ss ops) := by
  intro ops
  induction ops with
  | nil => exact fun ss h => h
  | cons op rest ih =>
    intro ss h
    exact ih _ (applyOp_preserves roots ss op h)

/-- Claim C6: in every session state reachable by start/stop operations from
the empty state, no two active WatchSessions share a root path, and starting
a root that already has an active session returns `Error(AlreadyWatching)`
instead of creating a second session. -/
theorem watch_unique_active (roots : List String) (ops : List WOp) :
    uniqueActive (runOps roots [] ops) ∧
    (∀ p, (runOps roots [] ops).any (fun s => s.isActive && s.rootPath == p) = true →
      startW roots (runOps roots [] ops) p = .error .alreadyWatching) := by
  constructor
  · exact runOps_preserves roots ops [] List.Pairwise.nil
  · intro p h
    simp [startW, h]

/-- Claim C6 witness: after starting "/a", the state is invariant-respecting
and a second start on "/a" is rejected with AlreadyWatching. -/
theorem watch_unique_active_witness :
    uniqueActive (runOps ["/a"] [] [WOp.wstart "/a"]) ∧
    startW ["/a"] (runOps ["/a"] [] [WOp.wstart "/a"]) "/a"
      = .error .alreadyWatching :=
  ⟨(watch_unique_active ["/a"] [WOp.wstart "/a"]).1,
   (watch_unique_active ["/a"] [WOp.wstart "/a"]).2 "/a" (by decide)⟩

/-! ## Decimal rendering: round trip and injectivity -/

/-- The decimal digit characters parse back to their digit. -/
theorem digitChar_round : ∀ d < 10, (Nat.digitChar d).toNat - 48 = d := by decide

/-- `parseAcc` consumes an appended list in two stages. -/
theorem parseAcc_append (a : Nat) (l1 l2 : List Char) :
    parseAcc a (l1 ++ l2) = parseAcc (parseAcc a l1) l2 := by
  induction l1 generalizing a with
  | nil => rfl
  | cons c t ih =>
    show parseAcc (a * 10 + (c.toNat - 48)) (t ++ l2)
        = parseAcc (parseAcc (a * 10 + (c.toNat - 48)) t) l2
    exact ih _

/-- Parsing a rendered number under an accumulator recovers the number. -/
theorem parseAcc_renderAux : ∀ (fuel n a : Nat), n < fuel →
    parseAcc a (renderAux fuel n) = a * 10 ^ (renderAux fuel n).length + n := by
  intro fuel
  induction fuel with
  | zero =>
    intro n a h
    exact absurd h (by omega)
  | succ fuel ih =>
    intro n a h
    by_cases h10 : n < 10
    · simp only [renderAux, if_pos h10]
      show a * 10 + ((Nat.digitChar n).toNat - 48) = a * 10 ^ ([Nat.digitChar n].length) + n
      rw [digitChar_round n h10, List.length_singleton, pow_one]
    · have hrec : n / 10 < fuel := by omega
      simp only [renderAux, if_neg h10]
      rw [parseAcc_append, ih (n / 10) a hrec, List.length_append,
        List.length_singleton]
      show (a * 10 ^ (renderAux fuel (n / 10)).length + n / 10) * 10
            + ((Nat.digitChar (n % 10)).toNat - 48)
          = a * 10 ^ ((renderAux fuel (n / 10)).length + 1) + n
      rw [digitChar_round (n % 10) (by omega)]
      have hn : n / 10 * 10 + n % 10 = n := by omega
      calc (a * 10 ^ (renderAux fuel (n / 10)).length + n / 10) * 10 + n % 10
          = a * (10 ^ (renderAux fuel (n / 10)).length * 10)
              + (n / 10 * 10 + n % 10) := by ring
        _ = a * 10 ^ ((renderAux fuel (n / 10)).length + 1) + n := by
            rw [hn, pow_succ]

/-- `renderNat` is injective — distinct numbers have distinct decimal
renderings. -/
theorem renderNat_inj : Function.Injective renderNat := by
  intro m n h
  have hd : renderAux (m + 1) m = renderAux (n + 1) n := congrArg String.data h
  have h1 : parseAcc 0 (renderAux (m + 1) m) = m := by
    rw [parseAcc_renderAux (m + 1) m 0 (by omega)]
    ring
  have h2 : parseAcc 0 (renderAux (n + 1) n) = n := by
    rw [parseAcc_renderAux (n + 1) n 0 (by omega)]
    ring
  rw [hd, h2] at h1
  exact h1.symm

/-! ## Candidate-name injectivity and free-name existence -/

/-- String append acts as list append on the underlying characters. -/
theorem strData_append (a b : String) : (a ++ b).data = a.data ++ b.data := by
  cases a
  cases b
  rfl

/-- Candidate destination names are pairwise distinct. -/
theorem candidate_inj (folder stem ext : String) :
    Function.Injective (candidate folder stem ext) := by
  have l1 : ("/" : String).data.length = 1 := rfl
  have l2 : (" (" : String).data.length = 2 := rfl
  have l3 : (")" : String).data.length = 1 := rfl
  intro i j h
  cases i with
  | zero =>
    cases j with
    | zero => rfl
    | succ k =>
      exfalso
      have hd : (folder ++ "/" ++ stem ++ ext).data.length
          = (folder ++ "/" ++ stem ++ " (" ++ renderNat (k + 1) ++ ")" ++ ext).data.length :=
        congrArg (fun t => t.data.length) h
      simp only [strData_append, List.length_append] at hd
      rw [l1, l2, l3] at hd
      omega
  | succ i' =>
    cases j with
    | zero =>
      exfalso
      have hd : (folder ++ "/" ++ stem ++ ext).data.length
          = (folder ++ "/" ++ stem ++ " (" ++ renderNat (i' + 1) ++ ")" ++ ext).data.length :=
        congrArg (fun t => t.data.length) h.symm
      simp only [strData_append, List.length_append] at hd
      rw [l1, l2, l3] at hd
      omega
    | succ j' =>
      have hd : (folder ++ "/" ++ stem ++ " (" ++ renderNat (i' + 1) ++ ")" ++ ext).data
          = (folder ++ "/" ++ stem ++ " (" ++ renderNat (j' + 1) ++ ")" ++ ext).data :=
        congrArg String.data h
      simp only [strData_append, List.append_assoc] at hd
      have h1 := List.append_cancel_left hd
      have h2 := List.append_cancel_left h1
      have h3 := List.append_cancel_left h2
      have h4 := List.append_cancel_left h3
      have h5 := List.append_cancel_right h4
      exact renderNat_inj (congrArg String.mk h5)

/-- Membership and `contains` agree on string lists. -/
theorem contains_true_of_mem {x : String} {l : List String} (h : x ∈ l) :
    l.contains x = true := by
  simpa using h

/-- `contains` false means non-membership. -/
theorem not_mem_of_contains_false {x : String} {l : List String}
    (h : l.contains x = false) : x ∉ l := by
  intro hx
  rw [contains_true_of_mem hx] at h
  exact Bool.noConfusion h

/-- A successful free-name search returns a candidate that is not on disk. -/
theorem findFreeAux_some (fs : List String) (cand : Nat → String) :
    ∀ (fuel k : Nat) (p : String), findFreeAux fs cand fuel k = some p →
      fs.contains p = false ∧ ∃ i, p = cand i := by
  intro fuel
  induction fuel with
  | zero =>
    intro k p h
    exact Option.noConfusion h
  | succ fuel ih =>
    intro k p h
    simp only [findFreeAux] at h
    by_cases hc : fs.contains (cand k) = true
    · rw [if_pos hc] at h
      exact ih (k + 1) p h
    · rw [if_neg hc] at h
      injection h with h
      subst h
      refine ⟨?_, ⟨k, rfl⟩⟩
      cases hb : fs.contains (cand k) with
      | false => rfl
      | true => exact absurd hb hc

/-- A failed free-name search means every tried candidate is on disk. -/
theorem findFreeAux_none (fs : List String) (cand : Nat → String) :
    ∀ (fuel k : Nat), findFreeAux fs cand fuel k = none →
      ∀ i, i < fuel → fs.contains (cand (k + i)) = true := by
  intro fuel
  induction fuel with
  | zero =>
    intro k _ i hi
    exact absurd hi (by omega)
  | succ fuel ih =>
    intro k h i hi
    simp only [findFreeAux] at h
    by_cases hc : fs.contains (cand k) = true
    · rw [if_pos hc] at h
      cases i with
      | zero => simpa using hc
      | succ i' =>
        have hres := ih (k + 1) h i' (by omega)
        rw [show k + (i' + 1) = k + 1 + i' by omega]
        exact hres
    · rw [if_neg hc] at h
      exact Option.noConfusion h

/-- With injective candidates the free-name search always succeeds: the
filesystem is finite, the candidates are not. -/
theorem findFree_some (fs : List String) (cand : Nat → String)
    (hinj : Function.Injective cand) : ∃ p, findFree fs cand = some p := by
  cases hf : findFree fs cand with
  | some p => exact ⟨p, rfl⟩
  | none =>
    exfalso
    have hall := findFreeAux_none fs cand (fs.length + 1) 0 hf
    have hsub : ∀ x ∈ (List.range (fs.length + 1)).map cand, x ∈ fs := by
      intro x hx
      rw [List.mem_map] at hx
      rcases hx with ⟨i, hi, rfl⟩
      rw [List.mem_range] at hi
      have hco := hall i hi
      rw [show (0 : Nat) + i = i by omega] at hco
      simpa using hco
    have hnd : ((List.range (fs.length + 1)).map cand).Nodup :=
      List.Nodup.map hinj (List.nodup_range _)
    have hcard1 : ((List.range (fs.length + 1)).map cand).toFinset.card = fs.length + 1 := by
      rw [List.toFinset_card_of_nodup hnd, List.length_map, List.length_range]
    have hsubf : ((List.range (fs.length + 1)).map cand).toFinset ⊆ fs.toFinset := by
      intro x hx
      rw [List.mem_toFinset] at hx ⊢
      exact hsub x hx
    have hle := Finset.card_le_card hsubf
    have hle2 := List.toFinset_card_le (l := fs)
    omega

/-! ## Move Operator: inversion and the move/store round trip -/

/-- `find?` by record key commutes with mapping a key-preserving function
over the store. -/
theorem find?_map_recKeyed (g : FileRecord → FileRecord)
    (hg : ∀ r, (g r).id = r.id) (l : List FileRecord) (fid : Nat) :
    (l.map g).find? (fun r => r.id == fid)
      = (l.find? (fun r => r.id == fid)).map g := by
  induction l with
  | nil => rfl
  | cons r l ih =>
    by_cases h : (r.id == fid) = true
    · simp [List.find?_cons, hg, h]
    · simp only [List.map_cons, List.find?_cons, hg, h]
      simp only [Bool.not_eq_true] at h
      simp [h, ih]

/-- Inversion of a successful `relocate`: the record was found, the source
existed, the destination is the first free candidate, and the new state
carries exactly the moved file and the re-pathed record. -/
theorem relocate_some_inv (st : SysState) (fid : Nat) (dest : String)
    (st' : SysState) (p : String) (h : relocate st fid dest = some (st', p)) :
    ∃ r, st.store.find? (fun q => q.id == fid) = some r ∧
      st.fs.contains r.path = true ∧
      findFree st.fs (candidateFor dest (fileName r.path)) = some p ∧
      st' = { fs := p :: st.fs.filter (fun q => q != r.path)
              store := st.store.map
                (fun q => if q.id == fid then { q with path := p } else q) } := by
  unfold relocate at h
  split at h
  · exact Option.noConfusion h
  · rename_i r hr
    split at h
    · rename_i hc
      split at h
      · exact Option.noConfusion h
      · rename_i np hf
        injection h with h
        rw [Prod.mk.injEq] at h
        obtain ⟨h1, h2⟩ := h
        subst h2
        exact ⟨r, hr, hc, hf, h1.symm⟩
    · exact Option.noConfusion h

/-- Claim C1: after a successful `relocate(file_id, destination_folder)`
returning `NewPath`, the store reports the record's path as `NewPath`, the
file exists at `NewPath`, and the original location no longer contains the
file; the move and the store update are atomic as a unit — the returned
state has both applied, and any failure returns `none` with no new state
observable. -/
theorem relocate_atomic_roundtrip (st : SysState) (fid : Nat) (dest : String)
    (st' : SysState) (p : String) (h : relocate st fid dest = some (st', p)) :
    pathOf st' fid = some p ∧ p ∈ st'.fs ∧
    (∀ r, st.store.find? (fun q => q.id == fid) = some r → r.path ∉ st'.fs) := by
  rcases relocate_some_inv st fid dest st' p h with ⟨r, hr, hc, hf, hst⟩
  subst hst
  have hg : ∀ q : FileRecord,
      ((if q.id == fid then { q with path := p } else q) : FileRecord).id = q.id := by
    intro q
    split <;> rfl
  refine ⟨?_, ?_, ?_⟩
  · unfold pathOf
    show ((st.store.map (fun q => if q.id == fid then { q with path := p } else q)).find?
      (fun q => q.id == fid)).map (fun r => r.path) = some p
    rw [find?_map_recKeyed _ hg, hr]
    have hpred := List.find?_some hr
    have hideq : r.id = fid := by simpa using hpred
    simp [hideq]
  · exact List.mem_cons_self _ _
  · intro r' hr'
    rw [hr] at hr'
    injection hr' with hre
    subst hre
    intro hmem
    rcases List.mem_cons.mp hmem with heq | hmem2
    · have hfree := (findFreeAux_some st.fs (candidateFor dest (fileName r.path))
        (st.fs.length + 1) 0 p hf).1
      rw [← heq] at hfree
      rw [hc] at hfree
      exact Bool.noConfusion hfree
    · rw [List.mem_filter] at hmem2
      have hb := hmem2.2
      simp at hb

/-- Claim C1 witness: moving the single file "/in/a.txt" of record 1 into
"/dst" yields "/dst/a.txt", recorded and present, with the source gone. -/
theorem relocate_atomic_roundtrip_witness :
    pathOf ⟨["/dst/a.txt"], [⟨1, "/dst/a.txt"⟩]⟩ 1 = some "/dst/a.txt" ∧
    "/dst/a.txt" ∈ (⟨["/dst/a.txt"], [⟨1, "/dst/a.txt"⟩]⟩ : SysState).fs ∧
    (∀ r, (⟨["/in/a.txt"], [⟨1, "/in/a.txt"⟩]⟩ : SysState).store.find?
        (fun q => q.id == 1) = some r →
      r.path ∉ (⟨["/dst/a.txt"], [⟨1, "/dst/a.txt"⟩]⟩ : SysState).fs) :=
  relocate_atomic_roundtrip ⟨["/in/a.txt"], [⟨1, "/in/a.txt"⟩]⟩ 1 "/dst"
    ⟨["/dst/a.txt"], [⟨1, "/dst/a.txt"⟩]⟩ "/dst/a.txt" (by rfl)

/-- `relocate` succeeds whenever the record exists and its file is on disk:
a free destination name always exists. -/
theorem relocate_succeeds (st : SysState) (fid : Nat) (dest : String)
    (r : FileRecord) (hr : st.store.find? (fun q => q.id == fid) = some r)
    (hp : r.path ∈ st.fs) :
    ∃ st' p, relocate st fid dest = some (st', p) := by
  have hc : st.fs.contains r.path = true := contains_true_of_mem hp
  have hinj : Function.Injective (candidateFor dest (fileName r.path)) := by
    unfold candidateFor
    exact candidate_inj _ _ _
  rcases findFree_some st.fs (candidateFor dest (fileName r.path)) hinj with ⟨p, hf⟩
  refine ⟨⟨p :: st.fs.filter (fun q => q != r.path),
      st.store.map (fun q => if q.id == fid then { q with path := p } else q)⟩, p, ?_⟩
  simp only [relocate, hr]
  rw [if_pos hc]
  simp only [hf]

/-- Claim C2: relocating two distinct files with identical target names into
the same destination never overwrites — both relocations succeed, the chosen
paths are distinct candidate names (bare name or numeric disambiguator
before the extension), and both files are on disk afterwards. -/
theorem collision_disambiguation (st : SysState) (fid1 fid2 : Nat) (dest : String)
    (r1 r2 : FileRecord)
    (h1 : st.store.find? (fun q => q.id == fid1) = some r1)
    (h2 : st.store.find? (fun q => q.id == fid2) = some r2)
    (hfid : fid1 ≠ fid2)
    (hp1 : r1.path ∈ st.fs) (hp2 : r2.path ∈ st.fs) (hpp : r1.path ≠ r2.path) :
    ∃ st1 p1 st2 p2,
      relocate st fid1 dest = some (st1, p1) ∧
      relocate st1 fid2 dest = some (st2, p2) ∧
      p1 ≠ p2 ∧ p1 ∈ st2.fs ∧ p2 ∈ st2.fs ∧
      (∃ k1, p1 = candidateFor dest (fileName r1.path) k1) ∧
      (∃ k2, p2 = candidateFor dest (fileName r2.path) k2) := by
  rcases relocate_succeeds st fid1 dest r1 h1 hp1 with ⟨st1, p1, hrel1⟩
  rcases relocate_some_inv st fid1 dest st1 p1 hrel1 with ⟨r1', hr1', hc1, hf1, hst1⟩
  rw [h1] at hr1'
  injection hr1' with hre1
  subst hre1
  have hfree1 := findFreeAux_some st.fs (candidateFor dest (fileName r1.path))
    (st.fs.length + 1) 0 p1 hf1
  subst hst1
  have hg1 : ∀ q : FileRecord,
      ((if q.id == fid1 then { q with path := p1 } else q) : FileRecord).id = q.id := by
    intro q
    split <;> rfl
  have hid2 : r2.id = fid2 := by
    have := List.find?_some h2
    simpa [beq_iff_eq] using this
  have hcond2 : (r2.id == fid1) = false := by
    simp only [beq_eq_false_iff_ne, ne_eq, hid2]
    exact fun he => hfid he.symm
  have hr2' : ((st.store.map
      (fun q => if q.id == fid1 then { q with path := p1 } else q)).find?
        (fun q => q.id == fid2)) = some r2 := by
    rw [find?_map_recKeyed _ hg1, h2]
    simp only [Option.map_some']
    rw [if_neg (by simp [hcond2])]
  have hp2mem : r2.path ∈ p1 :: st.fs.filter (fun q => q != r1.path) :=
    List.mem_cons_of_mem _ (List.mem_filter.mpr ⟨hp2, by
      simp only [bne_iff_ne, ne_eq, decide_eq_true_eq]
      exact fun he => hpp he.symm⟩)
  rcases relocate_succeeds
      ⟨p1 :: st.fs.filter (fun q => q != r1.path),
        st.store.map (fun q => if q.id == fid1 then { q with path := p1 } else q)⟩
      fid2 dest r2 hr2' hp2mem with ⟨st2, p2, hrel2⟩
  rcases relocate_some_inv _ fid2 dest st2 p2 hrel2 with ⟨r2'', hr2'', hc2, hf2, hst2⟩
  have hrr : some r2'' = some r2 := hr2''.symm.trans hr2'
  injection hrr with hre2
  subst hre2
  have hfree2 := findFreeAux_some _ (candidateFor dest (fileName r2''.path))
    _ 0 p2 hf2
  subst hst2
  refine ⟨_, p1, _, p2, hrel1, hrel2, ?_, ?_, ?_, hfree1.2, hfree2.2⟩
  · intro heq
    have hfree2' : (p1 :: st.fs.filter (fun q => q != r1.path)).contains p2 = false :=
      hfree2.1
    rw [← heq] at hfree2'
    have hmem1 : (p1 :: st.fs.filter (fun q => q != r1.path)).contains p1 = true :=
      contains_true_of_mem (List.mem_cons_self _ _)
    rw [hmem1] at hfree2'
    exact Bool.noConfusion hfree2'
  · show p1 ∈ p2 :: (p1 :: st.fs.filter (fun q => q != r1.path)).filter
      (fun q => q != r2''.path)
    refine List.mem_cons_of_mem _ (List.mem_filter.mpr ⟨List.mem_cons_self _ _, ?_⟩)
    have hne : p1 ≠ r2''.path := by
      intro he
      have := contains_true_of_mem hp2
      rw [← he] at this
      rw [hfree1.1] at this
      exact Bool.noConfusion this
    simp only [bne_iff_ne, ne_eq, decide_eq_true_eq]
    exact hne
  · exact List.mem_cons_self _ _

/-- Claim C2 witness: two records both named `invoice.pdf` moved into
"/Documents" land at "/Documents/invoice.pdf" and
"/Documents/invoice (1).pdf" — distinct, both on disk. -/
theorem collision_disambiguation_witness :
    ∃ st1 p1 st2 p2,
      relocate ⟨["/in/invoice.pdf", "/tmp/invoice.pdf"],
        [⟨1, "/in/invoice.pdf"⟩, ⟨2, "/tmp/invoice.pdf"⟩]⟩ 1 "/Documents"
        = some (st1, p1) ∧
      relocate st1 2 "/Documents" = some (st2, p2) ∧
      p1 ≠ p2 ∧ p1 ∈ st2.fs ∧ p2 ∈ st2.fs ∧
      (∃ k1, p1 = candidateFor "/Documents" (fileName "/in/invoice.pdf") k1) ∧
      (∃ k2, p2 = candidateFor "/Documents" (fileName "/tmp/invoice.pdf") k2) :=
  collision_disambiguation
    ⟨["/in/invoice.pdf", "/tmp/invoice.pdf"],
      [⟨1, "/in/invoice.pdf"⟩, ⟨2, "/tmp/invoice.pdf"⟩]⟩
    1 2 "/Documents" ⟨1, "/in/invoice.pdf"⟩ ⟨2, "/tmp/invoice.pdf"⟩
    (by rfl) (by rfl) (by decide) (by decide) (by decide) (by decide)

end SFO
